import Mathlib

/-!
Verification of the lisa2 core against its specification.

The development shallowly embeds the two source files of the repository:
`utils.py` (the `LISA_Results` table, `ragged_array_to_sparse_matrix`) and
`lisa/lisa_public_data/lisa.py` (the `LISA` front end: core budgeting,
assay validation, RP-map resolution, factor gene mask).  Python lists become
Lean lists, Python machinery such as `list.insert`, `zip`, `zip(*...)` and
`dict` is modelled by explicit helper functions with Python semantics, and
fallible Python code (IndexError, AssertionError, shape errors) returns
`Option` or `Except`.
-/

/-- Python `list.insert(pos, x)`: a negative position counts from the end
(clamped at 0), a position past the end appends. -/
def pyInsert {α : Type} (l : List α) (pos : Int) (x : α) : List α :=
  let i : Nat := if pos < 0 then (l.length + pos).toNat else min pos.toNat l.length
  List.insertIdx i x l

/-- Python `[list(l) for l in zip(*cols)]` (the `_transpose_table` staticmethod
of `LISA_Results`): transposes a list of columns, truncating every column to
the length of the shortest one; `zip()` of no columns is empty. -/
def transpose_table {α : Type} [Inhabited α] (cols : List (List α)) : List (List α) :=
  (List.range (((cols.map List.length).min?).getD 0)).map
    (fun i => cols.map (fun c => c.getD i default))

/-- One step of Python `dict` construction: inserting key `k` updates the
value in place when `k` is already present, otherwise appends the pair
(Python dicts preserve insertion order). -/
def pyDictInsert {κ ν : Type} [DecidableEq κ] (d : List (κ × ν)) (k : κ) (v : ν) :
    List (κ × ν) :=
  if d.any (fun p => decide (p.1 = k)) then
    d.map (fun p => if p.1 = k then (k, v) else p)
  else d ++ [(k, v)]

/-- Python `dict(pairs)`: left-to-right insertion with last-write-wins on
duplicate keys. -/
def pyDict {κ ν : Type} [DecidableEq κ] (ps : List (κ × ν)) : List (κ × ν) :=
  ps.foldl (fun d p => pyDictInsert d p.1 p.2) []

/-- Python `d[k]` on a dict represented as an ordered association list:
`none` models a KeyError. -/
def pyDictGet {κ ν : Type} [DecidableEq κ] (d : List (κ × ν)) (k : κ) : Option ν :=
  (d.find? (fun p => decide (p.1 = k))).map Prod.snd

/-- `utils.LISA_Results`: a column-addressable results table with a list of
header names and row-major storage of values. -/
structure LISA_Results (α : Type) where
  results_headers : List String
  results_rows : List (List α)
deriving Repr, DecidableEq

namespace LISA_Results

/-- `LISA_Results.fromdict(**kwargs)`: headers are the dict's keys, rows are
the transpose of the dict's value columns (`__init__` transposes the column
argument). -/
def fromdict {α : Type} [Inhabited α] (d : List (String × List α)) : LISA_Results α :=
  ⟨d.map Prod.fst, transpose_table (d.map Prod.snd)⟩

/-- `LISA_Results.get_colnum`: the first index of a header name
(`np.argwhere(...)[0][0]`); `none` models the re-raised IndexError when the
column is absent. -/
def get_colnum {α : Type} (t : LISA_Results α) (name : String) : Option Nat :=
  t.results_headers.indexOf? name

/-- `LISA_Results.todict`: `dict(zip(headers, transpose(rows)))`. -/
def todict {α : Type} [Inhabited α] (t : LISA_Results α) : List (String × List α) :=
  pyDict (t.results_headers.zip (transpose_table t.results_rows))

/-- `LISA_Results.update_column`: look the column up, then assign
`row[colnum] = value` for `row, value in zip(rows, data)` — Python `zip`
truncates, so rows beyond `len(data)` are left untouched.  `none` models the
IndexError for an unknown column name.  Row indexing is modelled by the
clamped `List.set`, which agrees with Python on every table satisfying the
row-width invariant (`colnum` is always below the header count). -/
def update_column {α : Type} (t : LISA_Results α) (name : String) (data : List α) :
    Option (LISA_Results α) :=
  (t.get_colnum name).map (fun colnum =>
    ⟨t.results_headers,
      (t.results_rows.zip data).map (fun rv => rv.1.set colnum rv.2)
        ++ t.results_rows.drop data.length⟩)

/-- `LISA_Results.add_column`: asserts the name is fresh (`none` models the
AssertionError), then either appends (`column_num == -1`) or inserts at
`column_num` into the headers and into each row of `zip(rows, data)` —
again `zip` truncates, leaving rows beyond `len(data)` untouched. -/
def add_column {α : Type} (t : LISA_Results α) (name : String) (data : List α)
    (column_num : Int) : Option (LISA_Results α) :=
  if name ∈ t.results_headers then none
  else if column_num = -1 then
    some ⟨t.results_headers ++ [name],
      (t.results_rows.zip data).map (fun rv => rv.1 ++ [rv.2])
        ++ t.results_rows.drop data.length⟩
  else
    some ⟨pyInsert t.results_headers column_num name,
      (t.results_rows.zip data).map (fun rv => pyInsert rv.1 column_num rv.2)
        ++ t.results_rows.drop data.length⟩

/-- `LISA_Results.sortby` with a numeric key: a stable ascending sort of the
rows by the value in column `key` (Python `sorted`), then, when `add_rank`
is set, `update_column('Rank', range(1, len+1))`, falling back to
`add_column('Rank', ..., 0)` when the update raises IndexError.  `ranks`
embeds the Python integers `1..N` into the table's value type; the fallback
`.getD` is unreachable because `add_column` only fails when `Rank` is
already a header, in which case `update_column` succeeded. -/
def sortby {α : Type} [LinearOrder α] [Inhabited α] (ranks : Nat → α)
    (t : LISA_Results α) (key : Nat) (add_rank : Bool) : LISA_Results α :=
  let sorted_rows := t.results_rows.mergeSort
    (fun r s => decide (r.getD key default ≤ s.getD key default))
  let t1 : LISA_Results α := ⟨t.results_headers, sorted_rows⟩
  if add_rank then
    let row_ranks := (List.range t1.results_rows.length).map (fun i => ranks (i + 1))
    match t1.update_column "Rank" row_ranks with
    | some t2 => t2
    | none => (t1.add_column "Rank" row_ranks 0).getD t1
  else t1

/-- `LISA_Results.subset(rows)`: select `results_rows[row] for row in rows`
(`none` models the IndexError on an out-of-range row index), then rebuild
the table through `__init__`, which transposes the transposed selection. -/
def subset {α : Type} [Inhabited α] (t : LISA_Results α) (rows : List Nat) :
    Option (LISA_Results α) := do
  let sel ← rows.mapM (fun i => t.results_rows[i]?)
  pure ⟨t.results_headers, transpose_table (transpose_table sel)⟩

/-- The lines of `LISA_Results.to_tsv(top_n)`: `subset(range(top_n))`, then
one tab-joined line for the headers and for each surviving row (`f` is
Python `str` on the cell values). -/
def to_tsv_lines {α : Type} [Inhabited α] (f : α → String) (t : LISA_Results α)
    (top_n : Nat) : Option (List String) :=
  (t.subset (List.range top_n)).map (fun out =>
    (String.intercalate "\t" out.results_headers)
      :: out.results_rows.map (fun row => String.intercalate "\t" (row.map f)))

/-- `LISA_Results.to_tsv(top_n)`: the newline join of `to_tsv_lines`. -/
def to_tsv {α : Type} [Inhabited α] (f : α → String) (t : LISA_Results α)
    (top_n : Nat) : Option String :=
  (t.to_tsv_lines f top_n).map (String.intercalate "\n")

/-- The table invariant from the spec: every row has exactly one value per
header, and headers are unique. -/
@[reducible] def WF {α : Type} (t : LISA_Results α) : Prop :=
  (∀ r ∈ t.results_rows, r.length = t.results_headers.length)
    ∧ t.results_headers.Nodup

end LISA_Results

/-- The error taxonomy of the sparse assembler (the spec's `ShapeError`,
covering scipy's ValueError on malformed sparse input: mismatched
coordinate arrays, row indices outside the matrix shape, and `hstack` of an
empty block list). -/
inductive ShapeError
  | length_mismatch
  | index_out_of_range
  | empty_hstack
deriving Repr, DecidableEq

/-- A sparse matrix as scipy exposes it to this code: a shape plus the list
of stored `(row, column, value)` entries in canonical form (per column, one
entry per distinct row index, rows ascending, duplicates summed). -/
structure SparseMat (α : Type) where
  n_rows : Nat
  n_cols : Nat
  entries : List (Nat × Nat × α)
deriving Repr, DecidableEq

/-- scipy's canonicalization of one column's COO triplets on CSC
construction (`sum_duplicates`): for each row index present, one stored
entry whose value is the sum of all values carrying that row index, in
ascending row order. -/
def sum_duplicates {α : Type} [AddMonoid α] (col_length : Nat)
    (pairs : List (Nat × α)) : List (Nat × α) :=
  ((List.range col_length).filter (fun r => pairs.any (fun e => decide (e.1 = r)))).map
    (fun r => (r, ((pairs.filter (fun e => decide (e.1 = r))).map Prod.snd).sum))

/-- One column of `utils.ragged_array_to_sparse_matrix`:
`sparse.csc_matrix((val_column, (index_column, zeros(len(val_column)))), shape=(col_length, 1))`.
The scipy COO constructor rejects coordinate and data arrays of different
lengths (here `len(index_column) != len(val_column)`, since the zero column
array is built with the length of `val_column`), and rejects any row index
outside `[0, col_length)`; otherwise the stored entries are the index/value
pairs canonicalized by the CSC conversion, which sums duplicate row
indices. -/
def csc_column {α : Type} [AddMonoid α] (col_length : Nat) (idx : List Int)
    (vals : List α) : Except ShapeError (List (Nat × α)) :=
  if idx.length ≠ vals.length then .error .length_mismatch
  else if idx.any (fun i => decide (i < 0) || decide ((col_length : Int) ≤ i)) then
    .error .index_out_of_range
  else .ok (sum_duplicates col_length ((idx.map Int.toNat).zip vals))

/-- `sparse.hstack` on a list of single-column blocks: concatenate the
blocks' entries, giving the block at position `j` the column index
`start + j`. -/
def hstack_entries {α : Type} (start : Nat) :
    List (List (Nat × α)) → List (Nat × Nat × α)
  | [] => []
  | c :: cs => c.map (fun e => (e.1, start, e.2)) ++ hstack_entries (start + 1) cs

/-- `utils.ragged_array_to_sparse_matrix(indices, values, col_length)`:
build one single-column sparse matrix per `zip(indices, values)` pair and
`hstack` them into a `(col_length, N)` matrix; `sparse.hstack` of an empty
block list (no columns survive the zip) raises a ValueError. -/
def ragged_array_to_sparse_matrix {α : Type} [AddMonoid α] (indices : List (List Int))
    (values : List (List α)) (col_length : Nat) : Except ShapeError (SparseMat α) := do
  let cols ← (indices.zip values).mapM (fun iv => csc_column col_length iv.1 iv.2)
  if cols.length = 0 then .error .empty_hstack
  else pure ⟨col_length, cols.length, hstack_entries 0 cols⟩

/-- A canonical gene of the organism's gene catalog: a matchable name, a
stable genomic location identifier, and a display symbol. -/
structure Gene (L : Type) where
  name : String
  loc : L
  symbol : String
deriving Repr, DecidableEq

/-- Modelled from the spec: the gene catalog collaborator
`all_genes.match_user_provided_genes` (its code lives in `lisa.core`, which
is not under `src/`).  Per the spec it matches the provided factor names
against the organism's canonical gene set and returns the sub-GeneSet of
matched genes; a name matching no canonical gene contributes nothing. -/
def match_user_provided_genes {L : Type} (canonical : List (Gene L))
    (provided : List String) : List (Gene L) :=
  canonical.filter (fun g => decide (g.name ∈ provided))

/-- `LISA._get_factor_gene_mask`: `loc_symbol_dict = dict(zip(locations, symbols))`,
`factor_gene_mask = np.isin(rp_map_locs, locations)`, and
`factor_mask_keys = [loc_symbol_dict[loc] for loc in rp_map_locs[mask]]`
(boolean-mask selection is a filter in reference row order).  The `.getD ""`
models the KeyError branch of the dict lookup, which is unreachable because
every selected location is a key of the dict. -/
def get_factor_gene_mask {L : Type} [DecidableEq L] (rp_map_locs : List L)
    (factor_genes : List (Gene L)) : List Bool × List String :=
  let locations := factor_genes.map (fun g => g.loc)
  let symbols := factor_genes.map (fun g => g.symbol)
  let loc_symbol_dict := pyDict (locations.zip symbols)
  let factor_gene_mask := rp_map_locs.map (fun l => decide (l ∈ locations))
  let factor_mask_keys := (rp_map_locs.filter (fun l => decide (l ∈ locations))).map
    (fun l => (pyDictGet loc_symbol_dict l).getD "")
  (factor_gene_mask, factor_mask_keys)

/-- Modelled from the spec: the merged configuration's `lisa_params.assays`
value (`config.ini` is not under `src/`); the spec's recognized assay kinds
are Direct, H3K27ac and DNase. -/
def lisa_valid_assays_str : String := "Direct,H3K27ac,DNase"

/-- `self._config.get('lisa_params','assays').split(',')` — the comma split
of `lisa_valid_assays_str`, written out (Lean's `String.splitOn` is
well-founded recursion and does not reduce definitionally). -/
def lisa_valid_assays : List String := ["Direct", "H3K27ac", "DNase"]

/-- The fatal configuration errors raised on the way from `LISA.__init__`
to `LISA._initialize_assays`. -/
inductive LisaInitError
  | no_assays
  | invalid_choice (valid : String)
  | invalid_assay (offending : String)
deriving Repr, DecidableEq

/-- The Python message attached to each error.  The `invalid_choice`
assertion message is the literal
`'An assay chosen by the user is not a valid choice: \{{}}'.format(valid)`:
`\` stays, `{{` and `}}` are format escapes for literal braces, so the
format call inserts nothing — the rendered message names neither the
offending assay nor, in fact, the valid choices. -/
def LisaInitError.render : LisaInitError → String
  | .no_assays => "Must provide at least one assay to run."
  | .invalid_choice _ => "An assay chosen by the user is not a valid choice: \\\x7b\x7d"
  | .invalid_assay a => "Invalid assay encountered: " ++ a

/-- `s` contains `pat` as a contiguous substring. -/
def str_contains_sub (s pat : String) : Bool :=
  s.toList.tails.any (fun t => pat.toList.isPrefixOf t)

/-- The two assay asserts of `LISA.__init__` (lines 75–76): at least one
assay, and every requested assay a member of the configured list. -/
def lisa_init_validate (assays : List String) : Except LisaInitError Unit :=
  if assays.length = 0 then .error .no_assays
  else if assays.all (fun a => decide (a ∈ lisa_valid_assays)) then .ok ()
  else .error (.invalid_choice lisa_valid_assays_str)

/-- `self.schedule_assays = sorted(list(set(assays)))`. -/
def schedule_assays (assays : List String) : List String :=
  assays.dedup.mergeSort (fun a b => decide (a ≤ b))

/-- `LISA._initialize_assays`: walk the scheduled kinds, registering a
`PeakRP_Assay` for `Direct` and an `Accesibility_Assay` for `DNase` or
`H3K27ac`; any other kind raises
`AssertionError('Invalid assay encountered: ...')`. -/
def lisa_setup_assays (scheduled : List String) : Except LisaInitError (List String) :=
  scheduled.mapM (fun assay =>
    if assay = "Direct" then .ok "PeakRP_Assay"
    else if assay = "DNase" ∨ assay = "H3K27ac" then .ok "Accesibility_Assay"
    else .error (.invalid_assay assay))

/-- The validation-to-registration path of a run: `__init__`'s asserts run
first, and only then does `_initialize_assays` construct assay modules. -/
def lisa_run_setup (assays : List String) : Except LisaInitError (List String) := do
  lisa_init_validate assays
  lisa_setup_assays (schedule_assays assays)

/-- The names bound at module level in `lisa/lisa_public_data/lisa.py` (its
imports and top-level definitions).  Python resolves the exception class of
an `except` clause only when an exception reaches it, against this module
namespace and the builtins; no binding of `error` exists anywhere in the
file, and `error` is not a builtin. -/
def lisa_module_names : List String :=
  ["os", "LISA_Core", "PACKAGE_PATH", "REQURED_DATASET_VERSION",
   "base_config_path", "assays", "LR_BinarySearch_SampleSelectionModel",
   "LR_ChromatinModel", "np", "sparse", "multiprocessing", "configparser",
   "CONFIG_PATH", "_config", "LISA"]

/-- Outcome of `LISA._load_rp_map` for a string-valued `rp_map`. -/
inductive RpMapOutcome
  | loaded (path : String)
  | name_error (missing : String)
  | load_error (path : String)
deriving Repr, DecidableEq

/-- Modelled from the spec: the deterministic local cache path of an RP-map
artifact, keyed by species, dataset version and map name (the `paths.rp_map`
config template is in `config.ini`, not under `src/`). -/
def rp_map_path (species version name : String) : String :=
  species ++ "_" ++ version ++ "_" ++ name

/-- `LISA._load_rp_map` for a string-valued `rp_map`, over an environment
giving which paths exist locally (`os.path.exists` / `sparse.load_npz`
success) and whether `fetch_from_cistrome` succeeds for a path.  When the
artifact is absent and the fetch raises, control reaches
`except error.URLError`, whose class expression Python must first resolve;
the handler body (warn, substitute `'basic'`, recompute the path, load with
no second fetch) runs only if the name `error` resolves in the module
namespace. -/
def load_rp_map (local_exists : String → Bool) (fetch_ok : String → Bool)
    (species version name : String) : RpMapOutcome :=
  let path := rp_map_path species version name
  if local_exists path then .loaded path
  else if fetch_ok path then .loaded path
  else if lisa_module_names.contains "error" then
    let fallback_path := rp_map_path species version "basic"
    if local_exists fallback_path then .loaded fallback_path
    else .load_error fallback_path
  else .name_error "error"

/-- `LISA._set_cores`: assert `cores >= -1` (`none` models the
AssertionError), treat `-1` as "all available", and clip to
`min(cores, cpu_count - 1, num_datasets_selected)`. -/
def set_cores (cpu_count : Nat) (num_datasets_selected : Nat) (cores : Int) :
    Option Int :=
  if cores < -1 then none
  else
    let max_cores : Int := (cpu_count : Int) - 1
    let c := if cores ≤ -1 then max_cores else cores
    some (min c (min max_cores (num_datasets_selected : Int)))

/-- The advisory check of `LISA.__init__` (lines 94–97): a warning is
appended to the log exactly when `num_datasets_selected % cores != 0`; the
run proceeds either way.  `none` models the ZeroDivisionError Python would
raise when the effective core count is 0. -/
def uneven_core_warning (num_datasets_selected : Nat) (cores : Int) : Option Bool :=
  if cores = 0 then none
  else some (decide ((num_datasets_selected : Int) % cores ≠ 0))

/-! ### Helper lemmas -/

theorem foldl_min_all_eq {a : Nat} :
    ∀ (xs : List Nat) (b : Nat), (∀ x ∈ xs, x = a) → b = a → xs.foldl min b = a
  | [], b, _, hb => hb
  | x :: xs, b, h, hb => by
    rw [List.foldl_cons]
    exact foldl_min_all_eq xs (min b x)
      (fun y hy => h y (List.mem_cons_of_mem x hy))
      (by rw [hb, h x (List.mem_cons_self x xs), min_self])

theorem min?_getD_all_eq {a : Nat} (l : List Nat) (h : ∀ x ∈ l, x = a) (hne : l ≠ []) :
    l.min?.getD 0 = a := by
  cases l with
  | nil => exact absurd rfl hne
  | cons x xs =>
    show (some (xs.foldl min x)).getD 0 = a
    rw [Option.getD_some]
    exact foldl_min_all_eq xs x (fun y hy => h y (List.mem_cons_of_mem x hy))
      (h x (List.mem_cons_self x xs))

theorem transpose_table_rect {α : Type} [Inhabited α] {cols : List (List α)} {L : Nat}
    (hne : cols ≠ []) (h : ∀ c ∈ cols, c.length = L) :
    transpose_table cols
      = (List.range L).map (fun i => cols.map (fun c => c.getD i default)) := by
  unfold transpose_table
  have hm : ((cols.map List.length).min?).getD 0 = L := by
    apply min?_getD_all_eq
    · intro x hx
      obtain ⟨c, hc, rfl⟩ := List.mem_map.mp hx
      exact h c hc
    · simpa using hne
  rw [hm]

theorem transpose_table_involution {α : Type} [Inhabited α] {rows : List (List α)}
    {L : Nat} (h : ∀ r ∈ rows, r.length = L) (hL : 1 ≤ L) :
    transpose_table (transpose_table rows) = rows := by
  cases rows with
  | nil => rfl
  | cons r rs =>
    have hne : (r :: rs) ≠ ([] : List (List α)) := by simp
    rw [transpose_table_rect hne h]
    have hne2 : (List.range L).map
        (fun i => (r :: rs).map (fun c => c.getD i default)) ≠ [] := by
      simp [List.range_eq_nil]
      omega
    have h2 : ∀ c ∈ (List.range L).map
        (fun i => (r :: rs).map (fun c => c.getD i default)),
        c.length = (r :: rs).length := by
      intro c hc
      obtain ⟨i, _, rfl⟩ := List.mem_map.mp hc
      simp
    rw [transpose_table_rect hne2 h2]
    apply List.ext_getElem
    · simp
    · intro j h1 h2'
      simp only [List.getElem_map, List.getElem_range]
      apply List.ext_getElem
      · simp only [List.length_map, List.length_range]
        exact (h _ (List.getElem_mem h2')).symm

      · intro i hi1 hi2
        simp only [List.getElem_map, List.getElem_range]
        have hjl : j < ((r :: rs).map (fun c => c.getD i default)).length := by
          simpa using h2'
        rw [List.getD_eq_getElem _ _ hjl, List.getElem_map,
          List.getD_eq_getElem _ _ hi2]

theorem mapM_getElem_range {α : Type} (l : List α) :
    ∀ (n : Nat), n ≤ l.length → (List.range n).mapM (fun i => l[i]?) = some (l.take n)
  | 0, _ => rfl
  | n + 1, hn => by
    have hlt : n < l.length := hn
    have hone : List.mapM (fun i => l[i]?) [n] = some [l[n]] := by
      simp only [List.mapM, List.mapM.loop, List.getElem?_eq_getElem hlt]
      rfl
    rw [List.range_succ, List.mapM_append, mapM_getElem_range l n (Nat.le_of_succ_le hn),
      hone, List.take_succ, List.getElem?_eq_getElem hlt]
    rfl

theorem mapM_except_ok {β γ ε : Type} {f : β → Except ε γ} {g : β → γ} :
    ∀ (l : List β), (∀ b ∈ l, f b = .ok (g b)) → l.mapM f = .ok (l.map g)
  | [], _ => rfl
  | b :: l, h => by
    rw [List.mapM_cons, h b (List.mem_cons_self b l),
      mapM_except_ok l (fun x hx => h x (List.mem_cons_of_mem b hx))]
    rfl

theorem mapM_except_err {β γ ε : Type} {f : β → Except ε γ} :
    ∀ (l : List β), (∃ b ∈ l, ∃ e, f b = .error e) → ∃ e, l.mapM f = .error e
  | [], h => absurd h (by simp)
  | b :: l, h => by
    rw [List.mapM_cons]
    obtain ⟨b0, hb0, e0, he0⟩ := h
    cases hfb : f b with
    | error e => exact ⟨e, rfl⟩
    | ok c =>
      rcases List.mem_cons.mp hb0 with rfl | hmem
      · rw [hfb] at he0; cases he0
      · obtain ⟨e, he⟩ := mapM_except_err l ⟨b0, hmem, e0, he0⟩
        rw [he]
        exact ⟨e, rfl⟩

theorem pyDict_foldl_eq {κ ν : Type} [DecidableEq κ] :
    ∀ (ps acc : List (κ × ν)), ((acc ++ ps).map Prod.fst).Nodup →
      ps.foldl (fun d p => pyDictInsert d p.1 p.2) acc = acc ++ ps
  | [], acc, _ => by simp
  | p :: ps, acc, h => by
    have h' := h
    rw [List.map_append, List.map_cons] at h'
    have hk : p.1 ∉ acc.map Prod.fst := by
      intro hmem
      exact (List.nodup_append.mp h').2.2 hmem (List.mem_cons_self _ _)
    have hc : (acc.any (fun q => decide (q.1 = p.1))) = false := by
      rw [List.any_eq_false]
      intro q hq
      simp only [decide_eq_true_eq]
      intro hq1
      exact hk (List.mem_map.mpr ⟨q, hq, hq1⟩)
    have hins : pyDictInsert acc p.1 p.2 = acc ++ [p] := by
      unfold pyDictInsert
      rw [hc]
      simp
    rw [List.foldl_cons, hins, pyDict_foldl_eq ps (acc ++ [p])
      (by rw [List.append_assoc, List.singleton_append]; exact h)]
    simp

theorem pyDict_eq_self {κ ν : Type} [DecidableEq κ] (ps : List (κ × ν))
    (h : (ps.map Prod.fst).Nodup) : pyDict ps = ps :=
  pyDict_foldl_eq ps [] (by simpa using h)

theorem subset_range_of_le {α : Type} [Inhabited α] (t : LISA_Results α) (n : Nat)
    (hn : n ≤ t.results_rows.length)
    (hw : ∀ r ∈ t.results_rows, r.length = t.results_headers.length)
    (hh : 1 ≤ t.results_headers.length) :
    t.subset (List.range n) = some ⟨t.results_headers, t.results_rows.take n⟩ := by
  unfold LISA_Results.subset
  rw [mapM_getElem_range _ _ hn]
  show some (⟨t.results_headers,
    transpose_table (transpose_table (t.results_rows.take n))⟩ : LISA_Results α) = _
  rw [transpose_table_involution (L := t.results_headers.length)
    (fun r hr => hw r (List.mem_of_mem_take hr)) hh]

theorem hstack_entries_length {α : Type} :
    ∀ (start : Nat) (cols : List (List (Nat × α))),
      (hstack_entries start cols).length = (cols.map List.length).sum
  | _, [] => rfl
  | start, c :: cs => by
    simp [hstack_entries, hstack_entries_length (start + 1) cs]

theorem hstack_entries_col_lb {α : Type} :
    ∀ (start : Nat) (cols : List (List (Nat × α))) (e : Nat × Nat × α),
      e ∈ hstack_entries start cols → start ≤ e.2.1
  | start, c :: cs, e, he => by
    rcases List.mem_append.mp he with h | h
    · obtain ⟨x, _, rfl⟩ := List.mem_map.mp h
      exact Nat.le_refl _
    · exact Nat.le_of_succ_le (hstack_entries_col_lb (start + 1) cs e h)

theorem hstack_entries_filter {α : Type} :
    ∀ (cols : List (List (Nat × α))) (start j : Nat), start ≤ j → j < start + cols.length →
      (hstack_entries start cols).filter (fun e => decide (e.2.1 = j))
        = (cols.getD (j - start) []).map (fun e => (e.1, j, e.2))
  | [], start, j, h1, h2 => by
    simp only [List.length_nil, Nat.add_zero] at h2
    omega
  | c :: cs, start, j, h1, h2 => by
    show (c.map (fun e => (e.1, start, e.2)) ++ hstack_entries (start + 1) cs).filter _ = _
    rw [List.filter_append]
    by_cases hj : start = j
    · subst hj
      have hcs : (hstack_entries (start + 1) cs).filter
          (fun e => decide (e.2.1 = start)) = [] := by
        rw [List.filter_eq_nil_iff]
        intro e he
        have := hstack_entries_col_lb (start + 1) cs e he
        simp only [decide_eq_true_eq]
        omega
      rw [hcs, List.filter_map, List.append_nil, Nat.sub_self]
      show _ = c.map (fun e => (e.1, start, e.2))
      congr 1
      rw [List.filter_eq_self]
      intro e _
      simp
    · have hc0 : (c.map (fun e => (e.1, start, e.2))).filter
          (fun e => decide (e.2.1 = j)) = [] := by
        rw [List.filter_eq_nil_iff]
        intro e he
        obtain ⟨x, _, rfl⟩ := List.mem_map.mp he
        simpa using hj
      have hstep := hstack_entries_filter cs (start + 1) j (by omega)
        (by simpa [Nat.add_assoc, Nat.add_comm 1 cs.length] using h2)
      rw [hc0, List.nil_append, hstep]
      have : j - start = (j - (start + 1)) + 1 := by omega
      rw [this, List.getD_cons_succ]

theorem filter_fst_eq_singleton {α : Type} :
    ∀ (P : List (Nat × α)) (p : Nat × α), (P.map Prod.fst).Nodup → p ∈ P →
      P.filter (fun e => decide (e.1 = p.1)) = [p]
  | q :: Q, p, hnd, hp => by
    rw [List.map_cons, List.nodup_cons] at hnd
    rcases List.mem_cons.mp hp with rfl | hpQ
    · rw [List.filter_cons_of_pos (by simp)]
      have hQ : Q.filter (fun e => decide (e.1 = p.1)) = [] := by
        rw [List.filter_eq_nil_iff]
        intro e he
        simp only [decide_eq_true_eq]
        intro h1
        exact hnd.1 (h1 ▸ List.mem_map.mpr ⟨e, he, rfl⟩)
      rw [hQ]
    · have hqp : q.1 ≠ p.1 := by
        intro h
        exact hnd.1 (h ▸ List.mem_map.mpr ⟨p, hpQ, rfl⟩)
      rw [List.filter_cons_of_neg (by simpa using hqp)]
      exact filter_fst_eq_singleton Q p hnd.2 hpQ

theorem mem_sum_duplicates_iff {α : Type} [AddMonoid α] (col_length : Nat)
    (P : List (Nat × α)) (hnd : (P.map Prod.fst).Nodup)
    (hlt : ∀ e ∈ P, e.1 < col_length) (e : Nat × α) :
    e ∈ sum_duplicates col_length P ↔ e ∈ P := by
  unfold sum_duplicates
  constructor
  · intro he
    obtain ⟨r, hr, rfl⟩ := List.mem_map.mp he
    have hany := (List.mem_filter.mp hr).2
    obtain ⟨p, hp, hp1⟩ := List.any_eq_true.mp hany
    have hp1 : p.1 = r := by simpa using hp1
    rw [← hp1, filter_fst_eq_singleton P p hnd hp, List.map_cons, List.map_nil,
      List.sum_cons, List.sum_nil, add_zero]
    simpa using hp
  · intro hp
    apply List.mem_map.mpr
    refine ⟨e.1, List.mem_filter.mpr ⟨List.mem_range.mpr (hlt e hp), ?_⟩, ?_⟩
    · exact List.any_eq_true.mpr ⟨e, hp, by simp⟩
    · rw [filter_fst_eq_singleton P e hnd hp, List.map_cons, List.map_nil,
        List.sum_cons, List.sum_nil, add_zero]

theorem sum_duplicates_nodup {α : Type} [AddMonoid α] (col_length : Nat)
    (P : List (Nat × α)) : (sum_duplicates col_length P).Nodup := by
  unfold sum_duplicates
  apply List.Nodup.map
  · intro a b hab
    exact congrArg Prod.fst hab
  · exact List.Nodup.filter _ (List.nodup_range col_length)

theorem sum_duplicates_perm {α : Type} [AddMonoid α] (col_length : Nat)
    (P : List (Nat × α)) (hnd : (P.map Prod.fst).Nodup)
    (hlt : ∀ e ∈ P, e.1 < col_length) :
    (sum_duplicates col_length P).Perm P := by
  apply List.Subperm.antisymm
  · apply List.subperm_of_subset (sum_duplicates_nodup col_length P)
    intro e he
    exact (mem_sum_duplicates_iff col_length P hnd hlt e).mp he
  · apply List.subperm_of_subset (List.Nodup.of_map Prod.fst hnd)
    intro e he
    exact (mem_sum_duplicates_iff col_length P hnd hlt e).mpr he

theorem find?_loc_unique {L : Type} [DecidableEq L] :
    ∀ (fg : List (Gene L)) (g : Gene L), (fg.map (fun x => x.loc)).Nodup → g ∈ fg →
      fg.find? (fun x => decide (x.loc = g.loc)) = some g
  | a :: l, g, hnd, hg => by
    rw [List.map_cons, List.nodup_cons] at hnd
    by_cases hloc : a.loc = g.loc
    · have : a = g := by
        rcases List.mem_cons.mp hg with rfl | hgl
        · rfl
        · exact absurd (hloc ▸ List.mem_map.mpr ⟨g, hgl, rfl⟩) hnd.1
      subst this
      rw [List.find?_cons_of_pos _ (by simp)]
    · have hgl : g ∈ l := by
        rcases List.mem_cons.mp hg with rfl | hgl
        · exact absurd rfl hloc
        · exact hgl
      rw [List.find?_cons_of_neg _ (by simpa using hloc)]
      exact find?_loc_unique l g hnd.2 hgl

theorem pyDictGet_gene_symbol {L : Type} [DecidableEq L] (fg : List (Gene L))
    (g : Gene L) (hnd : (fg.map (fun x => x.loc)).Nodup) (hg : g ∈ fg) :
    pyDictGet (pyDict ((fg.map (fun x => x.loc)).zip (fg.map (fun x => x.symbol))))
      g.loc = some g.symbol := by
  rw [List.zip_map']
  have hkeys : ((fg.map (fun x => (x.loc, x.symbol))).map Prod.fst).Nodup := by
    rw [List.map_map]
    exact hnd
  rw [pyDict_eq_self _ hkeys]
  unfold pyDictGet
  rw [List.find?_map]
  have : List.find? ((fun p => decide (p.1 = g.loc)) ∘ (fun x => (x.loc, x.symbol))) fg
      = some g := by
    have heq : ((fun p => decide (p.1 = g.loc)) ∘ (fun x : Gene L => (x.loc, x.symbol)))
        = (fun x : Gene L => decide (x.loc = g.loc)) := rfl
    rw [heq]
    exact find?_loc_unique fg g hnd hg
  rw [this]
  rfl

theorem pyInsert_length {α : Type} (l : List α) (pos : Int) (x : α) :
    (pyInsert l pos x).length = l.length + 1 := by
  unfold pyInsert
  apply List.length_insertIdx
  by_cases h : pos < 0
  · rw [if_pos h]
    omega
  · rw [if_neg h]
    exact Nat.min_le_right _ _

theorem pyInsert_perm {α : Type} (l : List α) (pos : Int) (x : α) :
    (pyInsert l pos x).Perm (x :: l) := by
  unfold pyInsert
  apply List.perm_insertIdx
  by_cases h : pos < 0
  · rw [if_pos h]
    omega
  · rw [if_neg h]
    exact Nat.min_le_right _ _

theorem pyInsert_zero {α : Type} (l : List α) (x : α) : pyInsert l 0 x = x :: l := by
  unfold pyInsert
  rw [if_neg (by omega)]
  show List.insertIdx (min (Int.toNat 0) l.length) x l = x :: l
  rw [Int.toNat_zero, Nat.zero_min, List.insertIdx_zero]

theorem add_column_wf {α : Type} (t : LISA_Results α) (hwf : t.WF)
    (name : String) (data : List α) (pos : Int) (t2 : LISA_Results α)
    (hdata : t.results_rows.length ≤ data.length)
    (h : t.add_column name data pos = some t2) : t2.WF := by
  unfold LISA_Results.add_column at h
  by_cases hmem : name ∈ t.results_headers
  · rw [if_pos hmem] at h
    cases h
  · rw [if_neg hmem] at h
    have hzip : ∀ rv ∈ t.results_rows.zip data, rv.1.length = t.results_headers.length :=
      fun rv hrv => hwf.1 rv.1 (List.of_mem_zip hrv).1
    have hdrop : t.results_rows.drop data.length = [] :=
      List.drop_eq_nil_of_le hdata
    have hnodup : (name :: t.results_headers).Nodup :=
      List.nodup_cons.mpr ⟨hmem, hwf.2⟩
    by_cases hpos : pos = -1
    · rw [if_pos hpos] at h
      cases h
      constructor
      · intro r hr
        rw [hdrop, List.append_nil] at hr
        obtain ⟨rv, hrv, rfl⟩ := List.mem_map.mp hr
        simp [hzip rv hrv]
      · exact ((List.perm_append_singleton name t.results_headers).nodup_iff).mpr hnodup
    · rw [if_neg hpos] at h
      cases h
      constructor
      · intro r hr
        rw [hdrop, List.append_nil] at hr
        obtain ⟨rv, hrv, rfl⟩ := List.mem_map.mp hr
        rw [pyInsert_length, pyInsert_length, hzip rv hrv]
      · exact ((pyInsert_perm t.results_headers pos name).nodup_iff).mpr hnodup

theorem update_column_wf {α : Type} (t : LISA_Results α) (hwf : t.WF)
    (name : String) (data : List α) (t2 : LISA_Results α)
    (h : t.update_column name data = some t2) : t2.WF := by
  unfold LISA_Results.update_column at h
  obtain ⟨colnum, _, ht2⟩ := Option.map_eq_some'.mp h
  subst ht2
  constructor
  · intro r hr
    rcases List.mem_append.mp hr with hr | hr
    · obtain ⟨rv, hrv, rfl⟩ := List.mem_map.mp hr
      rw [List.length_set]
      exact hwf.1 rv.1 (List.of_mem_zip hrv).1
    · exact hwf.1 r (List.drop_subset _ _ hr)
  · exact hwf.2

theorem sortby_step_wf {α : Type} [LinearOrder α] [Inhabited α]
    (t : LISA_Results α) (hwf : t.WF) (key : Nat) :
    (⟨t.results_headers, t.results_rows.mergeSort
      (fun r s => decide (r.getD key default ≤ s.getD key default))⟩ :
        LISA_Results α).WF :=
  ⟨fun r hr => hwf.1 r (List.mem_mergeSort.mp hr), hwf.2⟩

theorem sortby_wf {α : Type} [LinearOrder α] [Inhabited α]
    (t : LISA_Results α) (hwf : t.WF) (ranks : Nat → α) (key : Nat) (ar : Bool) :
    (t.sortby ranks key ar).WF := by
  have h1 := sortby_step_wf t hwf key
  unfold LISA_Results.sortby
  cases ar with
  | false => exact h1
  | true =>
    show (match (⟨t.results_headers, t.results_rows.mergeSort _⟩ :
        LISA_Results α).update_column "Rank" _ with
      | some t2 => t2
      | none => _).WF
    cases hu : (⟨t.results_headers, t.results_rows.mergeSort
        (fun r s => decide (r.getD key default ≤ s.getD key default))⟩ :
          LISA_Results α).update_column "Rank"
        ((List.range (t.results_rows.mergeSort
          (fun r s => decide (r.getD key default ≤ s.getD key default))).length).map
            (fun i => ranks (i + 1))) with
    | some t2 => exact update_column_wf _ h1 _ _ _ hu
    | none =>
      have hmem : "Rank" ∉ t.results_headers := by
        unfold LISA_Results.update_column LISA_Results.get_colnum at hu
        rw [Option.map_eq_none'] at hu
        intro hm
        rcases List.indexOf?_eq_none_iff.mp hu "Rank" hm with h
        exact h (by simp)
      obtain ⟨t3, h3⟩ : ∃ t3, (⟨t.results_headers, t.results_rows.mergeSort
          (fun r s => decide (r.getD key default ≤ s.getD key default))⟩ :
            LISA_Results α).add_column "Rank"
          ((List.range (t.results_rows.mergeSort
            (fun r s => decide (r.getD key default ≤ s.getD key default))).length).map
              (fun i => ranks (i + 1))) 0 = some t3 := by
        unfold LISA_Results.add_column
        rw [if_neg hmem, if_neg (by decide : ¬ (0 : Int) = -1)]
        exact ⟨_, rfl⟩
      rw [h3, Option.getD_some]
      exact add_column_wf _ h1 _ _ _ _ (by simp) h3

/-! ### The claims -/

/-- C1 (counterexample): on a one-row table, `to_tsv(2)` does not return all
rows — `subset(range(2))` indexes `results_rows[1]` out of range, so the
call fails (IndexError), contradicting the claim that a `topN` exceeding
the row count returns all `M` rows as `min(topN, M) + 1` lines. -/
theorem to_tsv_top_n_overflow :
    (⟨["A"], [["x"]]⟩ : LISA_Results String).to_tsv_lines id 2 = none
    ∧ (⟨["A"], [["x"]]⟩ : LISA_Results String).to_tsv id 2 = none := by
  constructor <;> rfl

/-- C1 (amended): on a table whose rows match its (nonempty) header list,
`to_tsv(topN)` with `topN ≤ M` returns the header line followed by the
first `topN` rows as tab-separated text — exactly `topN + 1 = min(topN, M) + 1`
lines; when `topN` exceeds `M` the call raises IndexError instead of
returning all rows (see the counterexample). -/
theorem to_tsv_lines_spec {α : Type} [Inhabited α] (f : α → String)
    (t : LISA_Results α) (top_n : Nat)
    (hn : top_n ≤ t.results_rows.length)
    (hw : ∀ r ∈ t.results_rows, r.length = t.results_headers.length)
    (hh : 1 ≤ t.results_headers.length) :
    t.to_tsv_lines f top_n
      = some ((String.intercalate "\t" t.results_headers)
          :: (t.results_rows.take top_n).map (fun row => String.intercalate "\t" (row.map f)))
    ∧ (∀ ls, t.to_tsv_lines f top_n = some ls →
        ls.length = min top_n t.results_rows.length + 1) := by
  have hmain : t.to_tsv_lines f top_n
      = some ((String.intercalate "\t" t.results_headers)
          :: (t.results_rows.take top_n).map
            (fun row => String.intercalate "\t" (row.map f))) := by
    unfold LISA_Results.to_tsv_lines
    rw [subset_range_of_le t top_n hn hw hh]
    rfl
  refine ⟨hmain, fun ls hls => ?_⟩
  rw [hmain] at hls
  cases hls
  simp [Nat.min_eq_left hn]

/-- C1 (witness): the amended theorem applied to a concrete 3-row,
2-column table with `topN = 2`. -/
theorem to_tsv_lines_spec_witness :
    (2 ≤ (⟨["A", "B"], [["x", "y"], ["u", "v"], ["p", "q"]]⟩ :
        LISA_Results String).results_rows.length)
    ∧ (⟨["A", "B"], [["x", "y"], ["u", "v"], ["p", "q"]]⟩ :
        LISA_Results String).to_tsv_lines id 2
      = some ((String.intercalate "\t" ["A", "B"])
          :: (([["x", "y"], ["u", "v"], ["p", "q"]] : List (List String)).take 2).map
            (fun row => String.intercalate "\t" (row.map id))) :=
  ⟨by decide,
    (to_tsv_lines_spec id ⟨["A", "B"], [["x", "y"], ["u", "v"], ["p", "q"]]⟩ 2
      (by decide) (by decide) (by decide)).1⟩

/-- C2: with the RP-map artifact absent locally and the remote fetch
failing, `_load_rp_map` does not log a warning and fall back to the
`basic` parameterization: the `except error.URLError` clause must resolve
the name `error`, which is bound nowhere in the module (urllib's `error`
module is never imported), so the handler itself raises `NameError` and no
fallback (let alone a `ResourceUnavailableError`) ever happens. -/
theorem load_rp_map_fetch_failure_name_error :
    load_rp_map (fun _ => false) (fun _ => false) "hg38" "v1" "basic"
      = .name_error "error"
    ∧ lisa_module_names.contains "error" = false := by
  constructor <;> rfl

/-- C6 (counterexample): requesting assays `["Direct", "Unknown"]` fails at
`__init__`'s membership assert, before `_initialize_assays` runs — but the
assertion message is the malformed format literal
`'... not a valid choice: \{{}}'.format(...)`, which names neither
`"Unknown"` nor anything else: the claim that the error names the
offending value is false. -/
theorem lisa_invalid_assay_message :
    lisa_run_setup ["Direct", "Unknown"]
      = .error (.invalid_choice lisa_valid_assays_str)
    ∧ str_contains_sub (LisaInitError.invalid_choice lisa_valid_assays_str).render
        "Unknown" = false := by
  constructor <;> rfl

/-- C6 (amended): any nonempty assay request containing an unrecognized
kind fails fast with the `__init__` invalid-choice assertion error before
any assay is constructed; the error does not name the offending value (the
later `_initialize_assays` check that would name it is unreachable for
user-requested assays, because `__init__` validates first). -/
theorem lisa_init_invalid_assay_fails_fast (assays : List String)
    (hne : assays ≠ []) (hbad : ∃ a ∈ assays, a ∉ lisa_valid_assays) :
    lisa_run_setup assays = .error (.invalid_choice lisa_valid_assays_str) := by
  obtain ⟨a, ha, hnot⟩ := hbad
  unfold lisa_run_setup lisa_init_validate
  have h1 : ¬ assays.length = 0 := fun h => hne (List.eq_nil_of_length_eq_zero h)
  rw [if_neg h1]
  have h2 : assays.all (fun a => decide (a ∈ lisa_valid_assays)) = false := by
    rw [List.all_eq_false]
    exact ⟨a, ha, by simpa using hnot⟩
  rw [h2]
  rfl

/-- C6 (witness): the amended theorem applied to the request
`["Direct", "Unknown"]`. -/
theorem lisa_init_invalid_assay_fails_fast_witness :
    (["Direct", "Unknown"] ≠ ([] : List String))
    ∧ lisa_run_setup ["Direct", "Unknown"]
        = .error (.invalid_choice lisa_valid_assays_str) :=
  ⟨by decide, lisa_init_invalid_assay_fails_fast ["Direct", "Unknown"]
    (by decide) (by decide)⟩

/-- C7 (counterexample): a requested worker count of `-1` (accepted by the
assert, meaning "all available") on a 4-core machine with 10 datasets
yields an effective count of 3, not `min(-1, 3, 10) = -1`: the claimed
equality with the three-way minimum of the *requested* count does not hold
for every request. -/
theorem set_cores_all_cores_request :
    set_cores 4 10 (-1) = some 3
    ∧ min (-1 : Int) (min ((4 : Int) - 1) (10 : Int)) = -1
    ∧ (3 : Int) ≠ -1 := by
  refine ⟨rfl, by decide, by decide⟩

/-- C7 (amended): for every nonnegative requested count the effective
worker count is exactly `min(requested, cpu_count - 1, num_datasets)`; a
request of `-1` stands for "all available" and yields
`min(cpu_count - 1, num_datasets)`; in every accepted case the effective
count exceeds neither the dataset count nor the host parallelism minus
one; and the uneven-division advisory is logged (non-fatally) exactly when
the nonzero effective count does not divide the dataset count. -/
theorem set_cores_spec (cpu_count num_datasets : Nat) (cores : Int)
    (h : 0 ≤ cores) :
    set_cores cpu_count num_datasets cores
        = some (min cores (min ((cpu_count : Int) - 1) (num_datasets : Int)))
    ∧ set_cores cpu_count num_datasets (-1)
        = some (min ((cpu_count : Int) - 1) (num_datasets : Int))
    ∧ (∀ c e, -1 ≤ c → set_cores cpu_count num_datasets c = some e →
        e ≤ (num_datasets : Int) ∧ e ≤ (cpu_count : Int) - 1)
    ∧ (∀ e : Int, e ≠ 0 →
        uneven_core_warning num_datasets e
          = some (decide ((num_datasets : Int) % e ≠ 0))) := by
  refine ⟨?_, ?_, ?_, ?_⟩
  · simp only [set_cores]
    rw [if_neg (show ¬ cores < -1 by omega), if_neg (show ¬ cores ≤ -1 by omega)]
  · simp only [set_cores]
    rw [if_neg (show ¬ (-1 : Int) < -1 by omega), if_pos (show (-1 : Int) ≤ -1 by omega)]
    rw [show min ((cpu_count : Int) - 1) (min ((cpu_count : Int) - 1) (num_datasets : Int))
      = min ((cpu_count : Int) - 1) (num_datasets : Int) from by
        rw [← min_assoc, min_self]]
  · intro c e hc he
    simp only [set_cores] at he
    rw [if_neg (show ¬ c < -1 by omega)] at he
    cases he
    constructor
    · exact le_trans (min_le_right _ _) (min_le_right _ _)
    · exact le_trans (min_le_right _ _) (min_le_left _ _)
  · intro e he
    unfold uneven_core_warning
    rw [if_neg he]

/-- C7 (witness): the amended theorem at the spec's scenario — request 7,
4 logical cores, 10 datasets — yields `min(7, 3, 10) = 3`. -/
theorem set_cores_spec_witness :
    ((0 : Int) ≤ 7)
    ∧ set_cores 4 10 7 = some (min 7 (min ((4 : Int) - 1) (10 : Int))) :=
  ⟨by decide, (set_cores_spec 4 10 7 (by decide)).1⟩

/-- C3 (counterexample): a duplicate row index within a column defeats the
claim even though every hypothesis of the claim holds (equal per-column
lengths, indices in range): scipy sums the duplicates on CSC construction,
so the column stores one entry `(0, 3)` instead of the claimed exact pairs
`(0, 1), (0, 2)` and the total stored-entry count is 1, not
`sum(len(values[j])) = 2`.  Also, with zero columns `sparse.hstack([])`
raises instead of returning a `(col_length, 0)` matrix. -/
theorem ragged_sparse_duplicate_index :
    ragged_array_to_sparse_matrix [[0, 0]] [[(1 : Int), 2]] 2
      = .ok ⟨2, 1, [(0, 0, 3)]⟩
    ∧ (⟨2, 1, [(0, 0, 3)]⟩ : SparseMat Int).entries.length
        ≠ (([[(1 : Int), 2]] : List (List Int)).map List.length).sum
    ∧ (⟨2, 1, [(0, 0, 3)]⟩ : SparseMat Int).entries.map (fun e => (e.1, e.2.2))
        ≠ (([0, 0] : List Int).map Int.toNat).zip [(1 : Int), 2]
    ∧ ragged_array_to_sparse_matrix ([] : List (List Int)) ([] : List (List Int)) 5
        = .error .empty_hstack := by
  refine ⟨rfl, by decide, by decide, rfl⟩

/-- C3 (amended): on ragged input with at least one column, per-column
index/value sequences of equal length, all indices in `[0, col_length)`
and no duplicate index within a column, the assembler returns a matrix of
shape `(col_length, N)` whose column `j` stores exactly the pairs
`(indices[j][k], values[j][k])` (as a permutation — scipy keeps them in
ascending row order), with `sum(len(values[j]))` stored entries in total;
empty columns contribute no entries, i.e. all-zero columns.  A duplicated
index makes scipy sum the entries (fewer stored entries than values), and
zero columns make `hstack` raise (see the counterexample). -/
theorem ragged_sparse_spec {α : Type} [AddMonoid α] (indices : List (List Int))
    (values : List (List α)) (col_length : Nat)
    (hne : indices ≠ [])
    (hN : indices.length = values.length)
    (hcols : ∀ j, j < indices.length →
      (indices.getD j []).length = (values.getD j []).length)
    (hrange : ∀ ic ∈ indices, ∀ i ∈ ic, 0 ≤ i ∧ i < (col_length : Int))
    (hnodup : ∀ ic ∈ indices, ic.Nodup) :
    ∃ m, ragged_array_to_sparse_matrix indices values col_length = .ok m
      ∧ m.n_rows = col_length
      ∧ m.n_cols = indices.length
      ∧ m.entries.length = (values.map List.length).sum
      ∧ ∀ j, j < indices.length →
          ((m.entries.filter (fun e => decide (e.2.1 = j))).map
            (fun e => (e.1, e.2.2))).Perm
              (((indices.getD j []).map Int.toNat).zip (values.getD j [])) := by
  have hzlen : (indices.zip values).length = indices.length := by
    rw [List.length_zip, hN, Nat.min_self]
  have hper : ∀ k (h1 : k < indices.length) (h2 : k < values.length),
      (sum_duplicates col_length ((indices[k].map Int.toNat).zip values[k])).Perm
        ((indices[k].map Int.toNat).zip values[k]) := by
    intro k hki hkv
    have hfst : ((indices[k].map Int.toNat).zip values[k]).map Prod.fst
        = indices[k].map Int.toNat := by
      apply List.map_fst_zip
      have := hcols k hki
      rw [List.getD_eq_getElem _ _ hki, List.getD_eq_getElem _ _ hkv] at this
      rw [List.length_map]
      omega
    apply sum_duplicates_perm
    · rw [hfst]
      apply List.Nodup.map_on
      · intro x hx y hy hxy
        have hxr := hrange indices[k] (List.getElem_mem hki) x hx
        have hyr := hrange indices[k] (List.getElem_mem hki) y hy
        omega
      · exact hnodup indices[k] (List.getElem_mem hki)
    · intro e he
      have he1 : e.1 ∈ ((indices[k].map Int.toNat).zip values[k]).map Prod.fst :=
        List.mem_map.mpr ⟨e, he, rfl⟩
      rw [hfst] at he1
      obtain ⟨i, hi, heq⟩ := List.mem_map.mp he1
      have := hrange indices[k] (List.getElem_mem hki) i hi
      omega
  have hok : ∀ iv ∈ indices.zip values,
      csc_column col_length iv.1 iv.2
        = .ok (sum_duplicates col_length ((iv.1.map Int.toNat).zip iv.2)) := by
    intro iv hiv
    obtain ⟨k, hk, hke⟩ := List.mem_iff_getElem.mp hiv
    rw [List.getElem_zip] at hke
    have hki : k < indices.length := by omega
    have hkv : k < values.length := by omega
    have hiv1 : iv.1 = indices[k] := by rw [← hke]
    have hiv2 : iv.2 = values[k] := by rw [← hke]
    unfold csc_column
    rw [if_neg, if_neg]
    · simp only [Bool.not_eq_true]
      rw [List.any_eq_false]
      intro i hi
      have hmem : i ∈ indices[k] := by rw [← hiv1]; exact hi
      have := hrange indices[k] (List.getElem_mem hki) i hmem
      simp only [Bool.or_eq_true, decide_eq_true_eq, not_or]
      omega
    · have := hcols k hki
      rw [List.getD_eq_getElem _ _ hki, List.getD_eq_getElem _ _ hkv] at this
      rw [hiv1, hiv2]
      omega
  have hmapM : (indices.zip values).mapM (fun iv => csc_column col_length iv.1 iv.2)
      = .ok ((indices.zip values).map
        (fun iv => sum_duplicates col_length ((iv.1.map Int.toNat).zip iv.2))) :=
    mapM_except_ok _ hok
  have hclen : ((indices.zip values).map
      (fun iv => sum_duplicates col_length ((iv.1.map Int.toNat).zip iv.2))).length
      = indices.length := by
    rw [List.length_map, hzlen]
  have hcne : ¬ ((indices.zip values).map
      (fun iv => sum_duplicates col_length ((iv.1.map Int.toNat).zip iv.2))).length = 0 := by
    rw [hclen]
    intro h
    exact hne (List.eq_nil_of_length_eq_zero h)
  refine ⟨⟨col_length,
    ((indices.zip values).map
      (fun iv => sum_duplicates col_length ((iv.1.map Int.toNat).zip iv.2))).length,
    hstack_entries 0 ((indices.zip values).map
      (fun iv => sum_duplicates col_length ((iv.1.map Int.toNat).zip iv.2)))⟩,
    ?_, rfl, hclen, ?_, ?_⟩
  · unfold ragged_array_to_sparse_matrix
    rw [hmapM]
    show (if _ then _ else _) = _
    rw [if_neg hcne]
    rfl
  · rw [hstack_entries_length]
    congr 1
    rw [List.map_map]
    apply List.ext_getElem
    · rw [List.length_map, hzlen, List.length_map, hN]
    · intro k h1 h2
      simp only [List.getElem_map, Function.comp_apply, List.getElem_zip]
      rw [List.length_map, hzlen] at h1
      rw [(hper k h1 (by omega)).length_eq, List.length_zip, List.length_map]
      have := hcols k h1
      rw [List.getD_eq_getElem _ _ h1, List.getD_eq_getElem _ _ (by omega)] at this
      omega
  · intro j hj
    have hjc : j < ((indices.zip values).map
        (fun iv => sum_duplicates col_length ((iv.1.map Int.toNat).zip iv.2))).length := by
      rw [hclen]
      exact hj
    rw [hstack_entries_filter _ 0 j (Nat.zero_le j) (by simpa using hjc),
      Nat.sub_zero, List.map_map]
    have hid : ((fun e : Nat × Nat × α => (e.1, e.2.2))
        ∘ (fun e : Nat × α => (e.1, j, e.2))) = id := rfl
    rw [hid, List.map_id, List.getD_eq_getElem _ _ hjc, List.getElem_map]
    simp only [List.getElem_zip]
    rw [List.getD_eq_getElem _ _ hj,
      List.getD_eq_getElem _ _ (by omega : j < values.length)]
    exact hper j hj (by omega)

/-- C3 (witness): the amended theorem at a concrete two-column ragged input
with duplicate-free columns. -/
theorem ragged_sparse_spec_witness :
    ∃ m, ragged_array_to_sparse_matrix [[0, 2], [1]] [[(10 : Int), 20], [30]] 3 = .ok m
      ∧ m.n_rows = 3
      ∧ m.n_cols = ([[0, 2], [1]] : List (List Int)).length
      ∧ m.entries.length = (([[(10 : Int), 20], [30]] : List (List Int)).map List.length).sum
      ∧ ∀ j, j < ([[0, 2], [1]] : List (List Int)).length →
          ((m.entries.filter (fun e => decide (e.2.1 = j))).map
            (fun e => (e.1, e.2.2))).Perm
              (((([[0, 2], [1]] : List (List Int)).getD j []).map Int.toNat).zip
                (([[(10 : Int), 20], [30]] : List (List Int)).getD j [])) :=
  ragged_sparse_spec [[0, 2], [1]] [[(10 : Int), 20], [30]] 3
    (by decide) (by decide) (by decide) (by decide) (by decide)


/-- C4: a ragged input in which some column has an index outside
`[0, col_length)`, or index and value sequences of different lengths,
makes the assembler fail with a `ShapeError`. -/
theorem ragged_sparse_shape_error {α : Type} [AddMonoid α] (indices : List (List Int))
    (values : List (List α)) (col_length : Nat)
    (hN : indices.length = values.length)
    (hbad : ∃ j, j < indices.length ∧
      ((indices.getD j []).length ≠ (values.getD j []).length
        ∨ ∃ i ∈ indices.getD j [], i < 0 ∨ (col_length : Int) ≤ i)) :
    ∃ e, ragged_array_to_sparse_matrix indices values col_length = .error e := by
  obtain ⟨j, hj, hbad⟩ := hbad
  have hjv : j < values.length := by omega
  have hjz : j < (indices.zip values).length := by
    rw [List.length_zip, hN, Nat.min_self]
    omega
  rw [List.getD_eq_getElem _ _ hj, List.getD_eq_getElem _ _ hjv] at hbad
  have herr : ∃ e0, csc_column col_length ((indices.zip values)[j]).1
      ((indices.zip values)[j]).2 = .error e0 := by
    rw [List.getElem_zip]
    unfold csc_column
    by_cases hlen : indices[j].length = values[j].length
    · have hrange : ∃ i ∈ indices[j], i < 0 ∨ (col_length : Int) ≤ i := by
        rcases hbad with h | h
        · exact absurd hlen h
        · exact h
      rw [if_neg (fun h => h hlen), if_pos]
      · exact ⟨.index_out_of_range, rfl⟩
      · rw [List.any_eq_true]
        obtain ⟨i, hi, hcase⟩ := hrange
        refine ⟨i, hi, ?_⟩
        simp only [Bool.or_eq_true, decide_eq_true_eq]
        exact hcase
    · rw [if_pos hlen]
      exact ⟨.length_mismatch, rfl⟩
  obtain ⟨e0, he0⟩ := herr
  obtain ⟨e, he⟩ := mapM_except_err (f := fun iv => csc_column col_length iv.1 iv.2)
    (indices.zip values) ⟨(indices.zip values)[j], List.getElem_mem hjz, e0, he0⟩
  refine ⟨e, ?_⟩
  unfold ragged_array_to_sparse_matrix
  rw [he]
  rfl

/-- C4 (witness): the theorem at a concrete input whose second column holds
the out-of-range index 3 for `col_length = 2`. -/
theorem ragged_sparse_shape_error_witness :
    ∃ e, ragged_array_to_sparse_matrix [[0], [3]] [[(1 : Int)], [2]] 2 = .error e :=
  ragged_sparse_shape_error [[0], [3]] [[(1 : Int)], [2]] 2 (by decide) (by decide)

/-- C5: for every reference row-location array and factor metadata (matched
through the canonical gene set, whose locations are unique), the computed
mask is true at row `i` exactly when that row's location is among the
matched factor gene locations; the reverse lookup holds exactly one display
symbol per true mask position, in reference row order, each being the
canonical symbol of the factor gene at that location; and a factor name
matching no canonical gene is silently excluded — prepending it to the
provided names changes nothing and raises no error. -/
theorem get_factor_gene_mask_spec {L : Type} [DecidableEq L] [Inhabited L]
    (rp_map_locs : List L) (canonical : List (Gene L)) (provided : List String)
    (bad : String)
    (hnodup : (canonical.map (fun g => g.loc)).Nodup)
    (hbad : bad ∉ canonical.map (fun g => g.name)) :
    ((get_factor_gene_mask rp_map_locs
        (match_user_provided_genes canonical provided)).1.length
      = rp_map_locs.length)
    ∧ (∀ i, i < rp_map_locs.length →
        ((get_factor_gene_mask rp_map_locs
            (match_user_provided_genes canonical provided)).1.getD i false = true
          ↔ rp_map_locs.getD i default
              ∈ (match_user_provided_genes canonical provided).map (fun g => g.loc)))
    ∧ ((get_factor_gene_mask rp_map_locs
        (match_user_provided_genes canonical provided)).2.length
      = (get_factor_gene_mask rp_map_locs
          (match_user_provided_genes canonical provided)).1.countP id)
    ∧ (∀ i, i < (get_factor_gene_mask rp_map_locs
          (match_user_provided_genes canonical provided)).2.length →
        ∃ g ∈ match_user_provided_genes canonical provided,
          (rp_map_locs.filter (fun l => decide (l ∈
              (match_user_provided_genes canonical provided).map (fun g => g.loc)))
            ).getD i default = g.loc
          ∧ (get_factor_gene_mask rp_map_locs
              (match_user_provided_genes canonical provided)).2.getD i "" = g.symbol)
    ∧ get_factor_gene_mask rp_map_locs
        (match_user_provided_genes canonical (bad :: provided))
      = get_factor_gene_mask rp_map_locs
          (match_user_provided_genes canonical provided) := by
  have hfg_nodup : ((match_user_provided_genes canonical provided).map
      (fun g => g.loc)).Nodup := by
    apply List.Nodup.sublist _ hnodup
    exact List.Sublist.map _ (List.filter_sublist canonical)
  refine ⟨by simp [get_factor_gene_mask], ?_, ?_, ?_, ?_⟩
  · intro i hi
    show ((rp_map_locs.map (fun l => decide (l ∈ _))).getD i false = true) ↔ _
    rw [List.getD_eq_getElem _ _ (by simpa using hi), List.getElem_map,
      List.getD_eq_getElem _ _ hi]
    simp
  · show ((rp_map_locs.filter _).map _).length = (rp_map_locs.map _).countP id
    rw [List.length_map, List.countP_map]
    have hcomp : (id ∘ fun l : L => decide (l ∈
        (match_user_provided_genes canonical provided).map (fun g => g.loc)))
      = (fun l : L => decide (l ∈
        (match_user_provided_genes canonical provided).map (fun g => g.loc))) := rfl
    rw [hcomp, List.countP_eq_length_filter]
  · intro i hi
    show ∃ g ∈ _, _ ∧ ((rp_map_locs.filter _).map _).getD i "" = g.symbol
    have hif : i < (rp_map_locs.filter (fun l => decide (l ∈
        (match_user_provided_genes canonical provided).map (fun g => g.loc)))).length := by
      have hlen2 : (get_factor_gene_mask rp_map_locs
          (match_user_provided_genes canonical provided)).2.length
          = (rp_map_locs.filter (fun l => decide (l ∈
            (match_user_provided_genes canonical provided).map
              (fun g => g.loc)))).length := by
        show ((rp_map_locs.filter _).map _).length = _
        rw [List.length_map]
      rw [hlen2] at hi
      exact hi
    have hmemf := List.getElem_mem hif
    have hmem := List.mem_filter.mp hmemf
    have hloc : (rp_map_locs.filter (fun l => decide (l ∈
        (match_user_provided_genes canonical provided).map (fun g => g.loc))))[i]
        ∈ (match_user_provided_genes canonical provided).map (fun g => g.loc) := by
      simpa using hmem.2
    obtain ⟨g, hg, hgl⟩ := List.mem_map.mp hloc
    refine ⟨g, hg, ?_, ?_⟩
    · rw [List.getD_eq_getElem _ _ hif, hgl]
    · rw [List.getD_eq_getElem _ _ (show i < ((rp_map_locs.filter (fun l => decide (l ∈
          (match_user_provided_genes canonical provided).map (fun g => g.loc)))).map
            (fun l => (pyDictGet (pyDict
              (((match_user_provided_genes canonical provided).map (fun g => g.loc)).zip
                ((match_user_provided_genes canonical provided).map (fun g => g.symbol))))
              l).getD "")).length from by rw [List.length_map]; exact hif),
        List.getElem_map, ← hgl, pyDictGet_gene_symbol _ g hfg_nodup hg]
      rfl
  · unfold get_factor_gene_mask
    have : match_user_provided_genes canonical (bad :: provided)
        = match_user_provided_genes canonical provided := by
      unfold match_user_provided_genes
      apply List.filter_congr
      intro g hg
      have hne : g.name ≠ bad := by
        intro h
        exact hbad (List.mem_map.mpr ⟨g, hg, h⟩)
      simp [List.mem_cons, hne]
    rw [this]

/-- C5 (witness): the theorem at a concrete catalog of two genes, one
matched factor name, one unmatched name, and a three-row reference. -/
theorem get_factor_gene_mask_spec_witness :
    ((get_factor_gene_mask [(1 : Nat), 2, 3]
        (match_user_provided_genes
          [⟨"GATA1", 2, "Gata1"⟩, ⟨"TP53", 3, "Tp53"⟩] ["GATA1"])).1.length = 3)
    ∧ get_factor_gene_mask [(1 : Nat), 2, 3]
        (match_user_provided_genes
          [⟨"GATA1", 2, "Gata1"⟩, ⟨"TP53", 3, "Tp53"⟩] ("NOPE" :: ["GATA1"]))
      = get_factor_gene_mask [(1 : Nat), 2, 3]
          (match_user_provided_genes
            [⟨"GATA1", 2, "Gata1"⟩, ⟨"TP53", 3, "Tp53"⟩] ["GATA1"]) :=
  ⟨(get_factor_gene_mask_spec [(1 : Nat), 2, 3]
      [⟨"GATA1", 2, "Gata1"⟩, ⟨"TP53", 3, "Tp53"⟩] ["GATA1"] "NOPE"
      (by decide) (by decide)).1,
   (get_factor_gene_mask_spec [(1 : Nat), 2, 3]
      [⟨"GATA1", 2, "Gata1"⟩, ⟨"TP53", 3, "Tp53"⟩] ["GATA1"] "NOPE"
      (by decide) (by decide)).2.2.2.2⟩

/-- C10: for a mapping from distinct column names to nonempty value lists
of equal length, `fromdict` then `todict` is the identity — the column-wise
round trip through the row-major representation. -/
theorem fromdict_todict_roundtrip {α : Type} [Inhabited α]
    (d : List (String × List α)) (n : Nat)
    (hkeys : (d.map Prod.fst).Nodup)
    (hlen : ∀ p ∈ d, p.2.length = n) (hn : 1 ≤ n) :
    (LISA_Results.fromdict d).todict = d := by
  unfold LISA_Results.fromdict LISA_Results.todict
  have hvals : ∀ c ∈ d.map Prod.snd, c.length = n := by
    intro c hc
    obtain ⟨p, hp, rfl⟩ := List.mem_map.mp hc
    exact hlen p hp
  show pyDict ((d.map Prod.fst).zip
    (transpose_table (transpose_table (d.map Prod.snd)))) = d
  rw [transpose_table_involution hvals hn, List.zip_map']
  have hid : (fun p : String × List α => (p.1, p.2)) = id := rfl
  rw [hid, List.map_id]
  exact pyDict_eq_self d hkeys

/-- C10 (witness): the round trip at a concrete two-column mapping. -/
theorem fromdict_todict_roundtrip_witness :
    (LISA_Results.fromdict [("A", [(1 : Int)]), ("B", [2])]).todict
      = [("A", [(1 : Int)]), ("B", [2])] :=
  fromdict_todict_roundtrip [("A", [(1 : Int)]), ("B", [2])] 1
    (by decide) (by decide) (by decide)

/-- C9 (counterexample): `add_column` with fewer values than rows returns
normally yet breaks the invariant — on a well-formed 2-row, 1-column table,
adding column `"B"` with the single value 5 yields a table whose second row
still has one value against two headers. -/
theorem add_column_short_data_breaks_invariant :
    (⟨["A"], [[(1 : Int)], [2]]⟩ : LISA_Results Int).WF
    ∧ (⟨["A"], [[(1 : Int)], [2]]⟩ : LISA_Results Int).add_column "B" [5] 0
        = some ⟨["B", "A"], [[5, 1], [2]]⟩
    ∧ ¬ (⟨["B", "A"], [[(5 : Int), 1], [2]]⟩ : LISA_Results Int).WF := by
  refine ⟨by decide, by decide, by decide⟩

/-- C9 (amended): on a well-formed table (one value per header in every
row, unique headers), every mutating operation that returns normally
preserves the invariant, provided the column data handed to `add_column`
covers every row; `update_column` and `sortBy` preserve it unconditionally,
while `add_column` with fewer values than rows returns normally and
violates it (see the counterexample). -/
theorem table_mutations_preserve_invariant {α : Type} [LinearOrder α] [Inhabited α]
    (t : LISA_Results α) (hwf : t.WF) :
    (∀ name data pos t2, t.results_rows.length ≤ data.length →
      t.add_column name data pos = some t2 → t2.WF)
    ∧ (∀ name data t2, t.update_column name data = some t2 → t2.WF)
    ∧ (∀ (ranks : Nat → α) key ar, (t.sortby ranks key ar).WF) :=
  ⟨fun name data pos t2 hd h => add_column_wf t hwf name data pos t2 hd h,
   fun name data t2 h => update_column_wf t hwf name data t2 h,
   fun ranks key ar => sortby_wf t hwf ranks key ar⟩

/-- C9 (witness): the amended theorem on a concrete well-formed table, read
off at a concrete `add_column` call that covers both rows. -/
theorem table_mutations_preserve_invariant_witness :
    (⟨["A"], [[(1 : Int)], [2]]⟩ : LISA_Results Int).WF
    ∧ (∀ name data pos t2,
        (⟨["A"], [[(1 : Int)], [2]]⟩ : LISA_Results Int).results_rows.length ≤ data.length →
        (⟨["A"], [[(1 : Int)], [2]]⟩ : LISA_Results Int).add_column name data pos = some t2 →
        t2.WF) :=
  ⟨by decide,
   (table_mutations_preserve_invariant (⟨["A"], [[(1 : Int)], [2]]⟩ : LISA_Results Int)
     (by decide)).1⟩

theorem mergeSort_key_filter {α : Type} [LinearOrder α] [Inhabited α]
    (rows : List (List α)) (key : Nat) (v : α) :
    (rows.mergeSort (fun r s => decide (r.getD key default ≤ s.getD key default))).filter
        (fun r => decide (r.getD key default = v))
      = rows.filter (fun r => decide (r.getD key default = v)) := by
  have htrans : ∀ a b c : List α,
      decide (a.getD key default ≤ b.getD key default) →
      decide (b.getD key default ≤ c.getD key default) →
      decide (a.getD key default ≤ c.getD key default) := by
    intro a b c hab hbc
    simp only [decide_eq_true_eq] at hab hbc ⊢
    exact le_trans hab hbc
  have htotal : ∀ a b : List α,
      decide (a.getD key default ≤ b.getD key default)
        || decide (b.getD key default ≤ a.getD key default) := by
    intro a b
    simp only [Bool.or_eq_true, decide_eq_true_eq]
    exact le_total _ _
  have hpair : (rows.filter (fun r => decide (r.getD key default = v))).Pairwise
      (fun a b => decide (a.getD key default ≤ b.getD key default) = true) := by
    apply List.pairwise_of_forall_mem_list
    intro a ha b hb
    have ha2 := (List.mem_filter.mp ha).2
    have hb2 := (List.mem_filter.mp hb).2
    simp only [decide_eq_true_eq] at ha2 hb2 ⊢
    rw [ha2, hb2]
  have hsub : (rows.filter (fun r => decide (r.getD key default = v))).Sublist
      (rows.mergeSort (fun r s => decide (r.getD key default ≤ s.getD key default))) :=
    List.sublist_mergeSort htrans htotal hpair (List.filter_sublist rows)
  have hff : (rows.filter (fun r => decide (r.getD key default = v))).filter
      (fun r => decide (r.getD key default = v))
      = rows.filter (fun r => decide (r.getD key default = v)) := by
    rw [List.filter_filter]
    apply List.filter_congr
    intro r _
    rw [Bool.and_self]
  have hsubf : (rows.filter (fun r => decide (r.getD key default = v))).Sublist
      ((rows.mergeSort (fun r s =>
        decide (r.getD key default ≤ s.getD key default))).filter
          (fun r => decide (r.getD key default = v))) := by
    have := hsub.filter (fun r => decide (r.getD key default = v))
    rw [hff] at this
    exact this
  have hperm : ((rows.mergeSort (fun r s =>
      decide (r.getD key default ≤ s.getD key default))).filter
        (fun r => decide (r.getD key default = v))).Perm
      (rows.filter (fun r => decide (r.getD key default = v))) :=
    (List.mergeSort_perm rows _).filter _
  exact (hsubf.eq_of_length hperm.length_eq.symm).symm

/-- C8 (counterexample): on a table that already has a `"Rank"` column at
position 1, `sortby(0, add_rank=True)` updates that column in place — the
resulting table keeps `"Rank"` at position 1, not position 0 as the claim
states. -/
theorem sortby_rank_not_at_position_zero :
    (⟨["A", "Rank"], [[(2 : Int), 9]]⟩ : LISA_Results Int).sortby Int.ofNat 0 true
      = ⟨["A", "Rank"], [[2, 1]]⟩
    ∧ ((⟨["A", "Rank"], [[(2 : Int), 9]]⟩ : LISA_Results Int).sortby
        Int.ofNat 0 true).results_headers.getD 0 "" ≠ "Rank" := by
  have h1 : (⟨["A", "Rank"], [[(2 : Int), 9]]⟩ : LISA_Results Int).sortby Int.ofNat 0 true
      = ⟨["A", "Rank"], [[2, 1]]⟩ := by
    simp [LISA_Results.sortby, LISA_Results.update_column, LISA_Results.get_colnum,
      List.mergeSort_singleton]
    decide
  exact ⟨h1, by rw [h1]; decide⟩

/-- C8 (amended): `sortby` performs a stable ascending sort of the rows by
the chosen column — the result is a permutation of the rows, ordered by the
key column, and rows with equal key retain their relative pre-sort order —
and with `add_rank` set the rank data `1..N` (under the integer embedding
`ranks`) is written in post-sort row order: inserted as a new `"Rank"`
column at position 0 when no `"Rank"` header exists, and written into the
existing `"Rank"` column in place (at its current position, not position 0)
otherwise. -/
theorem sortby_spec {α : Type} [LinearOrder α] [Inhabited α] (ranks : Nat → α)
    (t : LISA_Results α) (key : Nat)
    (hk : key < t.results_headers.length)
    (hw : ∀ r ∈ t.results_rows, r.length = t.results_headers.length) :
    ((t.sortby ranks key false).results_rows).Perm t.results_rows
    ∧ ((t.sortby ranks key false).results_rows).Pairwise
        (fun r s => r.getD key default ≤ s.getD key default)
    ∧ (∀ v : α, ((t.sortby ranks key false).results_rows).filter
          (fun r => decide (r.getD key default = v))
        = t.results_rows.filter (fun r => decide (r.getD key default = v)))
    ∧ (t.results_headers.indexOf? "Rank" = none →
        (t.sortby ranks key true).results_headers = "Rank" :: t.results_headers
        ∧ (t.sortby ranks key true).results_rows
            = (List.range t.results_rows.length).map (fun i =>
                ranks (i + 1) :: ((t.sortby ranks key false).results_rows).getD i []))
    ∧ (∀ p, t.results_headers.indexOf? "Rank" = some p →
        (t.sortby ranks key true).results_headers = t.results_headers
        ∧ (t.sortby ranks key true).results_rows
            = (List.range t.results_rows.length).map (fun i =>
                (((t.sortby ranks key false).results_rows).getD i []).set p
                  (ranks (i + 1)))) := by
  have hS : (t.sortby ranks key false).results_rows
      = t.results_rows.mergeSort
        (fun r s => decide (r.getD key default ≤ s.getD key default)) := rfl
  have htrans : ∀ a b c : List α,
      decide (a.getD key default ≤ b.getD key default) →
      decide (b.getD key default ≤ c.getD key default) →
      decide (a.getD key default ≤ c.getD key default) := by
    intro a b c hab hbc
    simp only [decide_eq_true_eq] at hab hbc ⊢
    exact le_trans hab hbc
  have htotal : ∀ a b : List α,
      decide (a.getD key default ≤ b.getD key default)
        || decide (b.getD key default ≤ a.getD key default) := by
    intro a b
    simp only [Bool.or_eq_true, decide_eq_true_eq]
    exact le_total _ _
  have hSlen : ((t.sortby ranks key false).results_rows).length
      = t.results_rows.length := by
    rw [hS, List.length_mergeSort]
  have hrdlen : ((List.range (t.results_rows.mergeSort
      (fun r s => decide (r.getD key default ≤ s.getD key default))).length).map
        (fun i => ranks (i + 1))).length
      = (t.results_rows.mergeSort
        (fun r s => decide (r.getD key default ≤ s.getD key default))).length := by
    rw [List.length_map, List.length_range]
  refine ⟨?_, ?_, ?_, ?_, ?_⟩
  · rw [hS]
    exact List.mergeSort_perm t.results_rows _
  · rw [hS]
    have := List.sorted_mergeSort htrans htotal t.results_rows
    exact this.imp (fun h => by simpa using h)
  · intro v
    rw [hS]
    exact mergeSort_key_filter t.results_rows key v
  · intro hnone
    have hmem : "Rank" ∉ t.results_headers := by
      intro hm
      rcases List.indexOf?_eq_none_iff.mp hnone "Rank" hm with h
      exact h (by simp)
    have hupd : (⟨t.results_headers, t.results_rows.mergeSort
        (fun r s => decide (r.getD key default ≤ s.getD key default))⟩ :
          LISA_Results α).update_column "Rank"
        ((List.range (t.results_rows.mergeSort
          (fun r s => decide (r.getD key default ≤ s.getD key default))).length).map
            (fun i => ranks (i + 1))) = none := by
      unfold LISA_Results.update_column LISA_Results.get_colnum
      show Option.map _ (t.results_headers.indexOf? "Rank") = none
      rw [hnone]
      rfl
    have hfull : t.sortby ranks key true
        = ⟨pyInsert t.results_headers 0 "Rank",
          ((t.results_rows.mergeSort
            (fun r s => decide (r.getD key default ≤ s.getD key default))).zip
              ((List.range (t.results_rows.mergeSort
                (fun r s => decide (r.getD key default ≤ s.getD key default))).length).map
                  (fun i => ranks (i + 1)))).map (fun rv => pyInsert rv.1 0 rv.2)
            ++ (t.results_rows.mergeSort
              (fun r s => decide (r.getD key default ≤ s.getD key default))).drop
                ((List.range (t.results_rows.mergeSort
                  (fun r s => decide (r.getD key default ≤ s.getD key default))).length).map
                    (fun i => ranks (i + 1))).length⟩ := by
      show (match (⟨t.results_headers, t.results_rows.mergeSort
          (fun r s => decide (r.getD key default ≤ s.getD key default))⟩ :
            LISA_Results α).update_column "Rank"
          ((List.range (t.results_rows.mergeSort
            (fun r s => decide (r.getD key default ≤ s.getD key default))).length).map
              (fun i => ranks (i + 1))) with
        | some t2 => t2
        | none => ((⟨t.results_headers, t.results_rows.mergeSort
            (fun r s => decide (r.getD key default ≤ s.getD key default))⟩ :
              LISA_Results α).add_column "Rank"
            ((List.range (t.results_rows.mergeSort
              (fun r s => decide (r.getD key default ≤ s.getD key default))).length).map
                (fun i => ranks (i + 1))) 0).getD _) = _
      rw [hupd]
      show ((⟨t.results_headers, t.results_rows.mergeSort
          (fun r s => decide (r.getD key default ≤ s.getD key default))⟩ :
            LISA_Results α).add_column "Rank" _ 0).getD _ = _
      unfold LISA_Results.add_column
      rw [if_neg hmem, if_neg (by decide : ¬ (0 : Int) = -1), Option.getD_some]
    rw [hfull]
    refine ⟨pyInsert_zero _ _, ?_⟩
    show (_ ++ _) = _
    rw [hrdlen, List.drop_length, List.append_nil]
    apply List.ext_getElem
    · rw [List.length_map, List.length_zip, List.length_map, List.length_range,
        Nat.min_self, List.length_map, List.length_range, List.length_mergeSort]
    · intro i h1 h2
      rw [List.length_map, List.length_zip, List.length_map, List.length_range,
        Nat.min_self] at h1
      simp only [List.getElem_map, List.getElem_zip, List.getElem_range]
      rw [pyInsert_zero, hS, List.getD_eq_getElem _ _ (by rw [List.length_mergeSort] at h1 ⊢; exact h1)]
  · intro p hp
    have hupd : (⟨t.results_headers, t.results_rows.mergeSort
        (fun r s => decide (r.getD key default ≤ s.getD key default))⟩ :
          LISA_Results α).update_column "Rank"
        ((List.range (t.results_rows.mergeSort
          (fun r s => decide (r.getD key default ≤ s.getD key default))).length).map
            (fun i => ranks (i + 1)))
        = some ⟨t.results_headers,
          ((t.results_rows.mergeSort
            (fun r s => decide (r.getD key default ≤ s.getD key default))).zip
              ((List.range (t.results_rows.mergeSort
                (fun r s => decide (r.getD key default ≤ s.getD key default))).length).map
                  (fun i => ranks (i + 1)))).map (fun rv => rv.1.set p rv.2)
            ++ (t.results_rows.mergeSort
              (fun r s => decide (r.getD key default ≤ s.getD key default))).drop
                ((List.range (t.results_rows.mergeSort
                  (fun r s => decide (r.getD key default ≤ s.getD key default))).length).map
                    (fun i => ranks (i + 1))).length⟩ := by
      unfold LISA_Results.update_column LISA_Results.get_colnum
      show Option.map _ (t.results_headers.indexOf? "Rank") = _
      rw [hp]
      rfl
    have hfull : t.sortby ranks key true
        = ⟨t.results_headers,
          ((t.results_rows.mergeSort
            (fun r s => decide (r.getD key default ≤ s.getD key default))).zip
              ((List.range (t.results_rows.mergeSort
                (fun r s => decide (r.getD key default ≤ s.getD key default))).length).map
                  (fun i => ranks (i + 1)))).map (fun rv => rv.1.set p rv.2)
            ++ (t.results_rows.mergeSort
              (fun r s => decide (r.getD key default ≤ s.getD key default))).drop
                ((List.range (t.results_rows.mergeSort
                  (fun r s => decide (r.getD key default ≤ s.getD key default))).length).map
                    (fun i => ranks (i + 1))).length⟩ := by
      show (match (⟨t.results_headers, t.results_rows.mergeSort
          (fun r s => decide (r.getD key default ≤ s.getD key default))⟩ :
            LISA_Results α).update_column "Rank"
          ((List.range (t.results_rows.mergeSort
            (fun r s => decide (r.getD key default ≤ s.getD key default))).length).map
              (fun i => ranks (i + 1))) with
        | some t2 => t2
        | none => ((⟨t.results_headers, t.results_rows.mergeSort
            (fun r s => decide (r.getD key default ≤ s.getD key default))⟩ :
              LISA_Results α).add_column "Rank"
            ((List.range (t.results_rows.mergeSort
              (fun r s => decide (r.getD key default ≤ s.getD key default))).length).map
                (fun i => ranks (i + 1))) 0).getD _) = _
      rw [hupd]
    rw [hfull]
    refine ⟨rfl, ?_⟩
    show (_ ++ _) = _
    rw [hrdlen, List.drop_length, List.append_nil]
    apply List.ext_getElem
    · rw [List.length_map, List.length_zip, List.length_map, List.length_range,
        Nat.min_self, List.length_map, List.length_range, List.length_mergeSort]
    · intro i h1 h2
      rw [List.length_map, List.length_zip, List.length_map, List.length_range,
        Nat.min_self] at h1
      simp only [List.getElem_map, List.getElem_zip, List.getElem_range]
      rw [hS, List.getD_eq_getElem _ _ (by rw [List.length_mergeSort] at h1 ⊢; exact h1)]

/-- C8 (witness): the amended theorem on a concrete 3-row table sorted by
its only column. -/
theorem sortby_spec_witness :
    (0 < (⟨["A"], [[(3 : Int)], [1], [2]]⟩ : LISA_Results Int).results_headers.length)
    ∧ ((⟨["A"], [[(3 : Int)], [1], [2]]⟩ : LISA_Results Int).sortby
        Int.ofNat 0 false).results_rows.Perm [[(3 : Int)], [1], [2]] :=
  ⟨by decide,
   (sortby_spec Int.ofNat (⟨["A"], [[(3 : Int)], [1], [2]]⟩ : LISA_Results Int) 0
     (by decide) (by decide)).1⟩
